import Mathlib

/-!
# Verification of the salon appointment application (`src/app.py`)

Shallow embedding of the core logic of a Flask appointment-booking app:
the slot calculator (`iter_slots_for_day`), the week builder
(`week_start_for`, `week_days`), and the appointment store operations
(`create_appointment`, `delete_appointment`, `fetch_week_appointments`,
plus the `slot_modal` point lookup).

Modelling choices, stated once here:

* **Dates** are proleptic-Gregorian ordinals (`Int`, the value of Python's
  `date.toordinal()`); ordinal 1 is 0001-01-01, a Monday, so Python's
  `date.weekday()` (Monday = 0 .. Sunday = 6) equals `(d - 1) % 7`.
* **Datetimes** are minutes since the epoch midnight (`Int`); every
  timestamp the program manufactures comes from an `"HH:MM"` label
  (`datetime.strptime(time_str, "%H:%M")`), so minute granularity is exact.
  `pytz.localize` on the configured zone (Europe/Istanbul, a fixed UTC
  offset in the relevant era, with no transition inside a business day)
  preserves wall-clock values and ordering, so localized datetimes are
  modelled by their wall-clock minute values.
* **`"HH:MM"` labels** (`strftime("%H:%M")`) are rendered by `labelOf`.
* Python's `str.strip()` is modelled by `pyStrip` (drop leading and
  trailing whitespace).
* The `created_at` column (wall-clock metadata, never read by any route)
  is not modelled.
-/

namespace Salon

/-- `date.weekday()` of an ordinal date: 0 = Monday, ..., 6 = Sunday. -/
def pyWeekday (d : Int) : Int := (d - 1) % 7

/-- `SLOT_MINUTES = 60` (src/app.py line 25). -/
def SLOT_MINUTES : Int := 60

/-- `START_TIME = time(9, 0)` as minutes of day (src/app.py line 26). -/
def START_MIN : Nat := 540

/-- `END_TIME = time(19, 30)` as minutes of day (src/app.py line 27). -/
def END_MIN : Nat := 1170

/-- `datetime.combine(day, t)` as minutes since the epoch midnight. -/
def dtOf (day : Int) (m : Nat) : Int := 1440 * day + m

/-- `.time()` of a datetime, as minutes of day. -/
def timeOfDay (t : Int) : Int := t % 1440

/-- Zero-padded two-digit rendering, as `strftime` does for `%H` / `%M`. -/
def two (n : Nat) : String := (if n < 10 then "0" else "") ++ toString n

/-- `strftime("%H:%M")` of a minutes-of-day value. -/
def labelOf (m : Nat) : String := two (m / 60) ++ ":" ++ two (m % 60)

/-- The `Slot` dataclass (src/app.py lines 74-77): a localized instant
paired with its `"HH:MM"` label. -/
structure Slot where
  dt : Int
  label : String
deriving DecidableEq, Repr

/-- The starts emitted by the `while` loop of `iter_slots_for_day`
(src/app.py lines 90-92), structurally recursive on a fuel argument.
The loop advances by 60 minutes per iteration, so `endT` iterations of
fuel are always more than enough; for the one call site
(`cur = 540`, `endT = 1170`) the fuel is never exhausted and this is
exactly the `while cur + 60 <= endT` loop. -/
def slotStartsFuel : Nat → Nat → Nat → List Nat
  | 0, _, _ => []
  | fuel + 1, cur, endT =>
    if cur + 60 ≤ endT then cur :: slotStartsFuel fuel (cur + 60) endT else []

/-- `while cur + timedelta(minutes=SLOT_MINUTES) <= end_dt` slot starts. -/
def slotStarts (cur endT : Nat) : List Nat := slotStartsFuel endT cur endT

/-- The regular slots accumulated by the `while` loop, for a given day. -/
def baseSlots (day : Int) : List Slot :=
  (slotStarts START_MIN END_MIN).map (fun m => { dt := dtOf day m, label := labelOf m })

/-- `iter_slots_for_day` (src/app.py lines 85-100): hourly slots from
09:00 while `cur + 60 <= 19:30`, then the special 18:30 slot appended when
not already present, when it still fits before closing, and when the day
is not Sunday; finally Sunday returns the empty list. -/
def iter_slots_for_day (day : Int) : List Slot :=
  let slots := baseSlots day
  let slots :=
    if (∀ s ∈ slots, timeOfDay s.dt ≠ 1110) ∧
        dtOf day 1110 + 60 ≤ dtOf day END_MIN ∧ pyWeekday day ≠ 6
    then slots ++ [{ dt := dtOf day 1110, label := labelOf 1110 }]
    else slots
  if pyWeekday day = 6 then [] else slots

/-- `week_start_for` (src/app.py lines 79-80): the Monday on or before. -/
def week_start_for (d : Int) : Int := d - pyWeekday d

/-- `week_days` (src/app.py lines 102-103): seven consecutive dates. -/
def week_days (start : Int) : List Int := (List.range 7).map (fun i => start + i)

/-- The ISO-week index of a date: two dates lie in the same
Monday-starting week exactly when these agree. -/
def isoWeekIndex (d : Int) : Int := (d - 1) / 7

end Salon

namespace Salon

/-! ## Evaluation of the slot calculator on the fixed configuration -/

lemma slotStarts_eval : slotStarts START_MIN END_MIN
    = [540, 600, 660, 720, 780, 840, 900, 960, 1020, 1080] := rfl

lemma timeOfDay_dtOf (day : Int) (m : Nat) (h : m < 1440) :
    timeOfDay (dtOf day m) = m := by
  unfold timeOfDay dtOf
  omega

/-- The full slot list on the fixed configuration: 09:00-18:00 hourly plus
the recovered 18:30 slot. -/
def standardSlots (day : Int) : List Slot :=
  [ { dt := dtOf day 540,  label := "09:00" },
    { dt := dtOf day 600,  label := "10:00" },
    { dt := dtOf day 660,  label := "11:00" },
    { dt := dtOf day 720,  label := "12:00" },
    { dt := dtOf day 780,  label := "13:00" },
    { dt := dtOf day 840,  label := "14:00" },
    { dt := dtOf day 900,  label := "15:00" },
    { dt := dtOf day 960,  label := "16:00" },
    { dt := dtOf day 1020, label := "17:00" },
    { dt := dtOf day 1080, label := "18:00" },
    { dt := dtOf day 1110, label := "18:30" } ]

lemma baseSlots_eval (day : Int) : baseSlots day
    = (standardSlots day).take 10 := rfl

lemma iter_slots_eq (day : Int) (h : pyWeekday day ≠ 6) :
    iter_slots_for_day day = standardSlots day := by
  have hall : ∀ s ∈ baseSlots day, timeOfDay s.dt ≠ 1110 := by
    intro s hs
    rw [baseSlots_eval] at hs
    simp only [standardSlots, List.take, List.mem_cons, List.not_mem_nil, or_false] at hs
    rcases hs with rfl | rfl | rfl | rfl | rfl | rfl | rfl | rfl | rfl | rfl <;>
      · simp only [timeOfDay, dtOf]
        omega
  have hfit : dtOf day 1110 + 60 ≤ dtOf day END_MIN := by
    simp only [dtOf, END_MIN]
    omega
  show (if pyWeekday day = 6 then [] else _) = _
  rw [if_neg h, if_pos ⟨hall, hfit, h⟩, baseSlots_eval]
  rfl

lemma iter_slots_sunday (day : Int) (h : pyWeekday day = 6) :
    iter_slots_for_day day = [] := by
  show (if pyWeekday day = 6 then [] else _) = _
  rw [if_pos h]

/-! ## Claim theorems for the slot calculator and week builder -/

/-- C4: on every non-Sunday date, the slot calculator under the configured
business hours 09:00-19:30 with 60-minute slots returns exactly the labels
09:00 through 18:00 hourly plus the recovered 18:30 near-closing slot. -/
theorem slot_labels_are_standard (day : Int) (h : pyWeekday day ≠ 6) :
    (iter_slots_for_day day).map Slot.label
      = ["09:00", "10:00", "11:00", "12:00", "13:00", "14:00",
         "15:00", "16:00", "17:00", "18:00", "18:30"] := by
  rw [iter_slots_eq day h]
  rfl

theorem slot_labels_are_standard_witness :
    pyWeekday 738886 ≠ 6 ∧
      (iter_slots_for_day 738886).map Slot.label
        = ["09:00", "10:00", "11:00", "12:00", "13:00", "14:00",
           "15:00", "16:00", "17:00", "18:00", "18:30"] :=
  ⟨by decide, slot_labels_are_standard 738886 (by decide)⟩

/-- C5: on non-Sunday dates the slot calculator returns a non-empty
sequence that is strictly increasing by time; on Sunday it returns the
empty sequence. -/
theorem slots_increasing_and_sunday_empty (day : Int) :
    (pyWeekday day ≠ 6 →
      iter_slots_for_day day ≠ [] ∧
        (iter_slots_for_day day).Chain' (fun a b => a.dt < b.dt)) ∧
    (pyWeekday day = 6 → iter_slots_for_day day = []) := by
  constructor
  · intro h
    rw [iter_slots_eq day h]
    refine ⟨by simp [standardSlots], ?_⟩
    simp only [standardSlots, List.chain'_cons, List.chain'_singleton, and_true, dtOf]
    omega
  · exact iter_slots_sunday day

theorem slots_increasing_and_sunday_empty_witness :
    (iter_slots_for_day 738886 ≠ [] ∧
      (iter_slots_for_day 738886).Chain' (fun a b => a.dt < b.dt)) ∧
    iter_slots_for_day 738892 = [] :=
  ⟨(slots_increasing_and_sunday_empty 738886).1 (by decide),
   (slots_increasing_and_sunday_empty 738892).2 (by decide)⟩

/-- C10: the slot calculator's label output depends only on whether the
date is the closed weekday: any two non-Sunday dates get identical label
sequences. -/
theorem slot_labels_date_independent (d1 d2 : Int)
    (h1 : pyWeekday d1 ≠ 6) (h2 : pyWeekday d2 ≠ 6) :
    (iter_slots_for_day d1).map Slot.label
      = (iter_slots_for_day d2).map Slot.label := by
  rw [iter_slots_eq d1 h1, iter_slots_eq d2 h2]
  rfl

theorem slot_labels_date_independent_witness :
    pyWeekday 1 ≠ 6 ∧ pyWeekday 738886 ≠ 6 ∧
      (iter_slots_for_day 1).map Slot.label
        = (iter_slots_for_day 738886).map Slot.label :=
  ⟨by decide, by decide, slot_labels_date_independent 1 738886 (by decide) (by decide)⟩

/-- C6: the week builder yields the 7 consecutive dates from the Monday on
or before the reference date; any two dates of the same ISO week yield the
same 7-date sequence, and the first element is always a Monday. -/
theorem week_builder_correct :
    (∀ d : Int,
      week_days (week_start_for d)
          = [week_start_for d, week_start_for d + 1, week_start_for d + 2,
             week_start_for d + 3, week_start_for d + 4, week_start_for d + 5,
             week_start_for d + 6] ∧
        pyWeekday (week_start_for d) = 0 ∧
        week_start_for d ≤ d ∧ d ≤ week_start_for d + 6) ∧
    (∀ d1 d2 : Int, isoWeekIndex d1 = isoWeekIndex d2 →
      week_days (week_start_for d1) = week_days (week_start_for d2)) := by
  have hstart : ∀ d : Int, week_start_for d = 7 * isoWeekIndex d + 1 := by
    intro d
    simp only [week_start_for, pyWeekday, isoWeekIndex]
    omega
  constructor
  · intro d
    refine ⟨?_, ?_, ?_, ?_⟩
    · simp [week_days, List.range_succ]
    · simp only [week_start_for, pyWeekday]
      omega
    · simp only [week_start_for, pyWeekday]
      omega
    · simp only [week_start_for, pyWeekday]
      omega
  · intro d1 d2 h
    rw [hstart d1, hstart d2, h]

theorem week_builder_correct_witness :
    isoWeekIndex 738886 = isoWeekIndex 738888 ∧
      week_days (week_start_for 738886) = week_days (week_start_for 738888) :=
  ⟨by decide, week_builder_correct.2 738886 738888 (by decide)⟩

/-! ## The appointment store -/

/-- Python whitespace, for `str.strip()`. -/
def isPySpace (c : Char) : Bool :=
  c == ' ' || c == '\t' || c == '\n' || c == '\x0b' || c == '\x0c' || c == '\r'

/-- `str.strip()`: drop leading and trailing whitespace. -/
def pyStrip (s : String) : String :=
  ⟨((s.data.dropWhile isPySpace).reverse.dropWhile isPySpace).reverse⟩

/-- The `Employee` row (src/app.py lines 34-38). -/
structure Employee where
  id : Nat
  name : String
deriving DecidableEq, Repr

/-- The `Appointment` row (src/app.py lines 40-56).  `created_at` is
wall-clock metadata never read by any route and is not modelled. -/
structure Appt where
  id : Nat
  employee_id : Nat
  customer_name : String
  phone : String
  service : String
  start_time : Int
  end_time : Int
  reminder_sent : Bool
deriving DecidableEq, Repr

/-- The SQLite database state: the two tables plus the autoincrement
counter for the appointment primary key. -/
structure DB where
  employees : List Employee
  appointments : List Appt
  nextId : Nat
deriving DecidableEq, Repr

/-- The seeded employees (src/app.py lines 24, 60-66), with the row ids
SQLite assigns on first startup. -/
def seedEmployees : List Employee :=
  [⟨1, "Merve"⟩, ⟨2, "Zeynep"⟩, ⟨3, "İrem"⟩, ⟨4, "X"⟩]

/-- The freshly-seeded, appointment-free database. -/
def initDB : DB := ⟨seedEmployees, [], 1⟩

/-- `s.get(Employee, emp_id)` succeeds. -/
def hasEmployee (db : DB) (empId : Nat) : Bool :=
  db.employees.any (fun e => e.id == empId)

/-- The point lookup `query(Appointment).filter_by(employee_id=...,
start_time=...)` (src/app.py lines 191, 220). -/
def findAppt (db : DB) (empId : Nat) (dt : Int) : Option Appt :=
  db.appointments.find? (fun a => a.employee_id == empId && a.start_time == dt)

/-- Whether some appointment occupies the (employee, start) key. -/
def hasKey (db : DB) (empId : Nat) (dt : Int) : Bool :=
  db.appointments.any (fun a => a.employee_id == empId && a.start_time == dt)

/-- The storage layer's reaction to an INSERT: the unique index
`uq_employee_slot` on `(employee_id, start_time)` (src/app.py lines 54-56)
rejects a duplicate key at commit time, independently of any
application-level check. -/
inductive InsertError where
  | uniqueViolation
deriving DecidableEq, Repr

/-- `s.add(Appointment(...)); s.commit()` as the storage layer executes
it: assign the next primary key and append the row, unless the unique
index `uq_employee_slot` rejects the key.  `reminder_sent` takes its
column default `False` (src/app.py line 50). -/
def dbInsert (db : DB) (empId : Nat) (cname phone service : String)
    (startT endT : Int) : Except InsertError (Appt × DB) :=
  if hasKey db empId startT then .error .uniqueViolation
  else
    let a : Appt := ⟨db.nextId, empId, cname, phone, service, startT, endT, false⟩
    .ok (a, ⟨db.employees, db.appointments ++ [a], db.nextId + 1⟩)

/-- An HTTP response of the booking routes: an error with its message and
status code, the 204 no-content redirect, or (for `create`) the persisted
appointment behind the 204. -/
inductive Resp where
  | err (msg : String) (status : Nat)
  | created (a : Appt)
  | noContent
deriving DecidableEq, Repr

/-- The store-level part of `create_appointment` (src/app.py lines
216-232): employee lookup, occupancy check, insert, commit. -/
def store_create (db : DB) (empId : Nat) (customerName phone service : String)
    (dt : Int) : Resp × DB :=
  if ¬ hasEmployee db empId then (.err "Çalışan bulunamadı." 404, db)
  else if hasKey db empId dt then (.err "Bu slot zaten dolu." 400, db)
  else
    match dbInsert db empId customerName phone service dt (dt + SLOT_MINUTES) with
    | .ok (a, db') => (.created a, db')
    | .error _ => (.err "IntegrityError" 500, db)

/-- The `POST /appointments` route `create_appointment` (src/app.py lines
194-237).  The time field arrives as the canonical `"HH:MM"` string of a
minutes-of-day value `timeMin` (the booking form round-trips
`strftime('%H:%M')`); `date` and `time` are present, so the truthiness
check of line 203 reduces to the stripped `customer_name` and `service`
being non-empty.  On every failure the session is discarded without a
commit, so the database component of the result equals the input. -/
def create_appointment (db : DB) (empId : Nat) (day : Int) (timeMin : Nat)
    (customerName phone service : String) : Resp × DB :=
  if pyStrip customerName = "" ∨ pyStrip service = "" then
    (.err "Zorunlu alanlar eksik." 400, db)
  else if pyWeekday day = 6 then (.err "Pazar günü randevu alınamaz." 400, db)
  else if labelOf timeMin ∉ (iter_slots_for_day day).map Slot.label then
    (.err "Geçersiz saat dilimi." 400, db)
  else
    store_create db empId (pyStrip customerName) (pyStrip phone) (pyStrip service)
      (dtOf day timeMin)

/-- The `POST /appointments/<id>/delete` route `delete_appointment`
(src/app.py lines 239-251): fetch by primary key, 404 when absent,
otherwise delete the row and commit. -/
def delete_appointment (db : DB) (apptId : Nat) : Resp × DB :=
  match db.appointments.find? (fun a => a.id == apptId) with
  | none => (.err "Randevu bulunamadı." 404, db)
  | some _ =>
    (.noContent,
      { db with appointments := db.appointments.filter (fun b => !(b.id == apptId)) })

/-- Modelled from the spec: `mark_reminder_sent(appointment_id)` appears
in the spec's store contract (§4.3) but no reminder dispatcher exists in
src/app.py — only the `reminder_sent` column does.  Per the spec it is an
idempotent flag flip that "never removes or otherwise mutates the
record". -/
def mark_reminder_sent (db : DB) (apptId : Nat) : DB :=
  { db with
    appointments := db.appointments.map (fun a =>
      if a.id = apptId then { a with reminder_sent := true } else a) }

/-- `fetch_week_appointments` (src/app.py lines 105-109): all appointments
whose start time lies between the first day's 00:00 and the last day's
23:59, both inclusive.  The source indexes `week_days_list[0]` and
`[-1]`; it is only ever called with the 7-element `week_days` list, so
the defaults of `headD`/`getLastD` are never exercised. -/
def fetch_week_appointments (db : DB) (weekDaysList : List Int) : List Appt :=
  let startDt := dtOf (weekDaysList.headD 0) 0
  let endDt := dtOf (weekDaysList.getLastD 0) 1439
  db.appointments.filter (fun a => startDt ≤ a.start_time && a.start_time ≤ endDt)

/-- The calendar day an instant falls on. -/
def dayOfInstant (t : Int) : Int := t / 1440

/-! ## Store invariants -/

/-- No two rows share the `(employee_id, start_time)` key — the property
the unique index `uq_employee_slot` guarantees. -/
@[reducible] def UniqueKeys (db : DB) : Prop :=
  db.appointments.Pairwise
    (fun a b => ¬(a.employee_id = b.employee_id ∧ a.start_time = b.start_time))

/-- Primary keys are pairwise distinct. -/
@[reducible] def UniqueIds (db : DB) : Prop := db.appointments.Pairwise (fun a b => a.id ≠ b.id)

/-- Every primary key is below the autoincrement counter. -/
@[reducible] def IdsBelow (db : DB) : Prop := ∀ a ∈ db.appointments, a.id < db.nextId

/-- Every appointment references an existing employee. -/
@[reducible] def FKOk (db : DB) : Prop := ∀ a ∈ db.appointments, hasEmployee db a.employee_id = true

/-- The conjunction of the structural store invariants. -/
@[reducible] def Inv (db : DB) : Prop := UniqueKeys db ∧ UniqueIds db ∧ IdsBelow db ∧ FKOk db

/-- The states the store can reach.  Besides the sequential operations,
`racedInsert` covers the losing half of two concurrent `create` calls:
its application-level occupancy check ran against a stale snapshot, so
only the storage-layer insert (with its unique index) stands between it
and the current state; the employee check stays valid because the
employee table never changes after seeding. -/
inductive Reachable : DB → Prop where
  | init : Reachable initDB
  | create (db : DB) (empId : Nat) (day : Int) (timeMin : Nat)
      (cn ph sv : String) (r : Resp) (db' : DB) :
      Reachable db →
      create_appointment db empId day timeMin cn ph sv = (r, db') →
      Reachable db'
  | racedInsert (db : DB) (empId : Nat) (cn ph sv : String) (dt : Int)
      (a : Appt) (db' : DB) :
      Reachable db →
      hasEmployee db empId = true →
      dbInsert db empId cn ph sv dt (dt + SLOT_MINUTES) = .ok (a, db') →
      Reachable db'
  | deleteStep (db : DB) (apptId : Nat) (r : Resp) (db' : DB) :
      Reachable db →
      delete_appointment db apptId = (r, db') →
      Reachable db'
  | mark (db : DB) (apptId : Nat) :
      Reachable db →
      Reachable (mark_reminder_sent db apptId)

/-! ## Preservation of the invariants -/

lemma hasKey_false_forall {db : DB} {empId : Nat} {dt : Int}
    (hk : hasKey db empId dt = false) :
    ∀ x ∈ db.appointments, ¬(x.employee_id = empId ∧ x.start_time = dt) := by
  intro x hx hcontra
  have : hasKey db empId dt = true := by
    simp only [hasKey, List.any_eq_true]
    exact ⟨x, hx, by simp [hcontra.1, hcontra.2]⟩
  rw [hk] at this
  exact Bool.false_ne_true this

/-- The unique index alone preserves key uniqueness: a successful
storage-layer insert into a store with pairwise distinct keys yields a
store with pairwise distinct keys, with no application-level check in
sight. -/
lemma dbInsert_uniqueKeys {db : DB} {empId : Nat} {cn ph sv : String}
    {startT endT : Int} {a : Appt} {db' : DB} (hK : UniqueKeys db)
    (h : dbInsert db empId cn ph sv startT endT = .ok (a, db')) :
    UniqueKeys db' := by
  unfold dbInsert at h
  by_cases hk : hasKey db empId startT
  · rw [if_pos hk] at h
    exact absurd h (by simp)
  · rw [if_neg hk] at h
    simp only [Except.ok.injEq, Prod.mk.injEq] at h
    obtain ⟨ha, hdb⟩ := h
    subst hdb
    unfold UniqueKeys at hK ⊢
    simp only
    rw [List.pairwise_append]
    refine ⟨hK, by simp, ?_⟩
    intro x hx b hb
    simp only [List.mem_singleton] at hb
    subst hb
    intro hcontra
    exact hasKey_false_forall (by simpa using hk) x hx ⟨hcontra.1, hcontra.2⟩

lemma dbInsert_inv {db : DB} {empId : Nat} {cn ph sv : String}
    {startT endT : Int} {a : Appt} {db' : DB} (hInv : Inv db)
    (hEmp : hasEmployee db empId = true)
    (h : dbInsert db empId cn ph sv startT endT = .ok (a, db')) :
    Inv db' := by
  obtain ⟨hK, hI, hB, hF⟩ := hInv
  have hKeys' := dbInsert_uniqueKeys hK h
  unfold dbInsert at h
  by_cases hk : hasKey db empId startT
  · rw [if_pos hk] at h
    exact absurd h (by simp)
  · rw [if_neg hk] at h
    simp only [Except.ok.injEq, Prod.mk.injEq] at h
    obtain ⟨ha, hdb⟩ := h
    subst hdb
    refine ⟨hKeys', ?_, ?_, ?_⟩
    · unfold UniqueIds at hI ⊢
      simp only
      rw [List.pairwise_append]
      refine ⟨hI, by simp, ?_⟩
      intro x hx b hb
      simp only [List.mem_singleton] at hb
      subst hb
      have := hB x hx
      show x.id ≠ db.nextId
      omega
    · intro x hx
      simp only [List.mem_append, List.mem_singleton] at hx
      show x.id < db.nextId + 1
      rcases hx with hx | hx
      · have := hB x hx
        omega
      · subst hx
        show db.nextId < db.nextId + 1
        omega
    · intro x hx
      simp only [List.mem_append, List.mem_singleton] at hx
      rcases hx with hx | hx
      · exact hF x hx
      · subst hx
        exact hEmp

lemma store_create_inv {db : DB} {empId : Nat} {cn ph sv : String} {dt : Int}
    {r : Resp} {db' : DB} (hInv : Inv db)
    (h : store_create db empId cn ph sv dt = (r, db')) : Inv db' := by
  unfold store_create at h
  by_cases he : hasEmployee db empId
  · rw [if_neg (by simpa using he)] at h
    by_cases hk : hasKey db empId dt
    · rw [if_pos hk] at h
      obtain ⟨-, hdb⟩ := Prod.mk.injEq .. ▸ h
      exact hdb ▸ hInv
    · rw [if_neg hk] at h
      rcases hins : dbInsert db empId cn ph sv dt (dt + SLOT_MINUTES) with e | p
      · rw [hins] at h
        obtain ⟨-, hdb⟩ := Prod.mk.injEq .. ▸ h
        exact hdb ▸ hInv
      · rcases p with ⟨a, db₀⟩
        rw [hins] at h
        obtain ⟨-, hdb⟩ := Prod.mk.injEq .. ▸ h
        exact hdb ▸ dbInsert_inv hInv he hins
  · rw [if_pos (by simpa using he)] at h
    obtain ⟨-, hdb⟩ := Prod.mk.injEq .. ▸ h
    exact hdb ▸ hInv

lemma create_inv {db : DB} {empId : Nat} {day : Int} {timeMin : Nat}
    {cn ph sv : String} {r : Resp} {db' : DB} (hInv : Inv db)
    (h : create_appointment db empId day timeMin cn ph sv = (r, db')) :
    Inv db' := by
  unfold create_appointment at h
  split at h
  · obtain ⟨-, hdb⟩ := Prod.mk.injEq .. ▸ h
    exact hdb ▸ hInv
  split at h
  · obtain ⟨-, hdb⟩ := Prod.mk.injEq .. ▸ h
    exact hdb ▸ hInv
  split at h
  · obtain ⟨-, hdb⟩ := Prod.mk.injEq .. ▸ h
    exact hdb ▸ hInv
  exact store_create_inv hInv h

lemma delete_inv {db : DB} {apptId : Nat} {r : Resp} {db' : DB} (hInv : Inv db)
    (h : delete_appointment db apptId = (r, db')) : Inv db' := by
  obtain ⟨hK, hI, hB, hF⟩ := hInv
  unfold delete_appointment at h
  split at h
  · obtain ⟨-, hdb⟩ := Prod.mk.injEq .. ▸ h
    exact hdb ▸ ⟨hK, hI, hB, hF⟩
  · obtain ⟨-, hdb⟩ := Prod.mk.injEq .. ▸ h
    subst hdb
    have hsub := List.filter_sublist (l := db.appointments)
      (p := fun b => !(b.id == apptId))
    refine ⟨hK.sublist hsub, hI.sublist hsub, ?_, ?_⟩
    · intro x hx
      exact hB x (hsub.mem hx)
    · intro x hx
      exact hF x (hsub.mem hx)

lemma mark_fields (apptId : Nat) (x : Appt) :
    ((fun a => if a.id = apptId then { a with reminder_sent := true } else a) x).id
        = x.id ∧
      ((fun a => if a.id = apptId then { a with reminder_sent := true } else a) x).employee_id
        = x.employee_id ∧
      ((fun a => if a.id = apptId then { a with reminder_sent := true } else a) x).start_time
        = x.start_time := by
  by_cases hx : x.id = apptId <;> simp [hx]

lemma mark_inv {db : DB} {apptId : Nat} (hInv : Inv db) :
    Inv (mark_reminder_sent db apptId) := by
  obtain ⟨hK, hI, hB, hF⟩ := hInv
  unfold mark_reminder_sent
  refine ⟨?_, ?_, ?_, ?_⟩
  · unfold UniqueKeys at hK ⊢
    simp only
    rw [List.pairwise_map]
    refine hK.imp ?_
    intro a b hab hcontra
    exact hab ⟨(mark_fields apptId a).2.1 ▸ (mark_fields apptId b).2.1 ▸ hcontra.1,
      (mark_fields apptId a).2.2 ▸ (mark_fields apptId b).2.2 ▸ hcontra.2⟩
  · unfold UniqueIds at hI ⊢
    simp only
    rw [List.pairwise_map]
    refine hI.imp ?_
    intro a b hab hcontra
    exact hab ((mark_fields apptId a).1 ▸ (mark_fields apptId b).1 ▸ hcontra)
  · intro x hx
    simp only [List.mem_map] at hx
    obtain ⟨y, hy, hxy⟩ := hx
    have := hB y hy
    rw [← hxy]
    simp only
    rw [(mark_fields apptId y).1]
    exact this
  · intro x hx
    simp only [List.mem_map] at hx
    obtain ⟨y, hy, hxy⟩ := hx
    have := hF y hy
    rw [← hxy, (mark_fields apptId y).2.1]
    exact this

lemma initDB_inv : Inv initDB := by
  refine ⟨?_, ?_, ?_, ?_⟩ <;> simp [UniqueKeys, UniqueIds, IdsBelow, FKOk, initDB]

lemma reachable_inv : ∀ db, Reachable db → Inv db := by
  intro db h
  induction h with
  | init => exact initDB_inv
  | create db empId day timeMin cn ph sv r db' _ hstep ih => exact create_inv ih hstep
  | racedInsert db empId cn ph sv dt a db' _ hEmp hstep ih =>
      exact dbInsert_inv ih hEmp hstep
  | deleteStep db apptId r db' _ hstep ih => exact delete_inv ih hstep
  | mark db apptId _ ih => exact mark_inv ih

/-- C1: every reachable store state has pairwise distinct
(employee, start timestamp) keys — every operation, including the
spec-modelled reminder flag flip, preserves this — and the uniqueness is
enforced by the storage layer's unique index itself: a bare storage-level
insert (no application-level read-then-write check, as in the losing half
of a concurrent create) also preserves it. -/
theorem unique_slot_invariant :
    (∀ db, Reachable db → UniqueKeys db) ∧
    (∀ (db : DB) (empId : Nat) (cn ph sv : String) (startT endT : Int)
        (a : Appt) (db' : DB),
      UniqueKeys db →
      dbInsert db empId cn ph sv startT endT = .ok (a, db') →
      UniqueKeys db') :=
  ⟨fun db h => (reachable_inv db h).1,
   fun _ _ _ _ _ _ _ _ _ hK h => dbInsert_uniqueKeys hK h⟩

theorem unique_slot_invariant_witness : UniqueKeys initDB :=
  unique_slot_invariant.1 initDB Reachable.init

/-! ## The error taxonomy of the spec, as concrete HTTP responses -/

/-- ValidationError: missing/blank required field (400). -/
@[reducible] def isValidationError (r : Resp) : Prop :=
  r = .err "Zorunlu alanlar eksik." 400

/-- InvalidSlotError: closed day or a label outside the calculator's
output (400). -/
@[reducible] def isInvalidSlotError (r : Resp) : Prop :=
  r = .err "Pazar günü randevu alınamaz." 400 ∨ r = .err "Geçersiz saat dilimi." 400

/-- ConflictError: slot already taken (400). -/
@[reducible] def isConflictError (r : Resp) : Prop :=
  r = .err "Bu slot zaten dolu." 400

/-! ## Store `create` (C2) -/

/-- The row `store_create` persists on success. -/
def newAppt (db : DB) (empId : Nat) (cn ph sv : String) (dt : Int) : Appt :=
  ⟨db.nextId, empId, cn, ph, sv, dt, dt + SLOT_MINUTES, false⟩

/-- C2: the store-level create conflicts (leaving the store unchanged)
when the (employee, start) key is occupied, 404s (leaving the store
unchanged) when the employee is unknown, and otherwise persists exactly
one new record with `end_timestamp = start + 60` and returns it.  The
foreign-key hypothesis rules out the unreachable overlap of the two
failure conditions (an occupied key always references an existing
employee). -/
theorem store_create_contract (db : DB) (hFK : FKOk db) (empId : Nat)
    (cn ph sv : String) (dt : Int) :
    (hasKey db empId dt = true →
      store_create db empId cn ph sv dt = (.err "Bu slot zaten dolu." 400, db)) ∧
    (hasEmployee db empId = false →
      store_create db empId cn ph sv dt = (.err "Çalışan bulunamadı." 404, db)) ∧
    (hasEmployee db empId = true → hasKey db empId dt = false →
      store_create db empId cn ph sv dt =
        (.created (newAppt db empId cn ph sv dt),
          ⟨db.employees, db.appointments ++ [newAppt db empId cn ph sv dt],
            db.nextId + 1⟩)) := by
  refine ⟨?_, ?_, ?_⟩
  · intro hk
    have he : hasEmployee db empId = true := by
      simp only [hasKey, List.any_eq_true, Bool.and_eq_true, beq_iff_eq] at hk
      obtain ⟨x, hx, hx1, -⟩ := hk
      have := hFK x hx
      rw [hx1] at this
      exact this
    unfold store_create
    rw [if_neg (by simp [he]), if_pos hk]
  · intro he
    unfold store_create
    rw [if_pos (by simp [he])]
  · intro he hk
    unfold store_create
    rw [if_neg (by simp [he]), if_neg (by simp [hk])]
    unfold dbInsert
    rw [if_neg (by simp [hk])]
    rfl

theorem store_create_contract_witness :
    FKOk initDB ∧ hasEmployee initDB 1 = true ∧
      hasKey initDB 1 (dtOf 738886 540) = false ∧
      store_create initDB 1 "Ayşe Yılmaz" "+905331112233" "Kirpik" (dtOf 738886 540) =
        (.created (newAppt initDB 1 "Ayşe Yılmaz" "+905331112233" "Kirpik" (dtOf 738886 540)),
          ⟨initDB.employees,
            initDB.appointments ++
              [newAppt initDB 1 "Ayşe Yılmaz" "+905331112233" "Kirpik" (dtOf 738886 540)],
            initDB.nextId + 1⟩) :=
  ⟨by decide, by decide, by decide,
   (store_create_contract initDB (by decide) 1 "Ayşe Yılmaz" "+905331112233" "Kirpik"
     (dtOf 738886 540)).2.2 (by decide) (by decide)⟩

/-! ## Booking-request check order (C3) -/

/-- C3 counterexample: on the closed weekday with a blank customer name,
`create_appointment` signals the blank-field ValidationError, not
InvalidSlotError — the blank-field check of src/app.py line 203 runs
before the closed-weekday check of line 209. -/
theorem create_order_counterexample :
    pyWeekday 738892 = 6 ∧
      create_appointment initDB 1 738892 540 " " "+905331112233" "Kirpik"
        = (.err "Zorunlu alanlar eksik." 400, initDB) ∧
      ¬ isInvalidSlotError
          (create_appointment initDB 1 738892 540 " " "+905331112233" "Kirpik").1 := by
  refine ⟨by decide, by decide, by decide⟩

/-- C3 amended: `create_appointment` first rejects a blank (after
trimming) customer_name or service with ValidationError — even on the
closed weekday — then rejects the closed weekday with InvalidSlotError
(independent of slot emptiness), then rejects a label the slot calculator
did not produce with InvalidSlotError, and only then touches the store;
a request on an invalid slot (closed weekday or bad label) never
produces a ConflictError and leaves the store untouched. -/
theorem create_check_order (db : DB) (empId : Nat) (day : Int) (timeMin : Nat)
    (cn ph sv : String) :
    (pyStrip cn = "" ∨ pyStrip sv = "" →
      create_appointment db empId day timeMin cn ph sv
        = (.err "Zorunlu alanlar eksik." 400, db)) ∧
    (pyStrip cn ≠ "" → pyStrip sv ≠ "" → pyWeekday day = 6 →
      create_appointment db empId day timeMin cn ph sv
        = (.err "Pazar günü randevu alınamaz." 400, db)) ∧
    (pyStrip cn ≠ "" → pyStrip sv ≠ "" → pyWeekday day ≠ 6 →
      labelOf timeMin ∉ (iter_slots_for_day day).map Slot.label →
      create_appointment db empId day timeMin cn ph sv
        = (.err "Geçersiz saat dilimi." 400, db)) ∧
    (pyWeekday day = 6 ∨ labelOf timeMin ∉ (iter_slots_for_day day).map Slot.label →
      ¬ isConflictError (create_appointment db empId day timeMin cn ph sv).1 ∧
        (create_appointment db empId day timeMin cn ph sv).2 = db) := by
  refine ⟨?_, ?_, ?_, ?_⟩
  · intro hblank
    unfold create_appointment
    rw [if_pos hblank]
  · intro hcn hsv hday
    unfold create_appointment
    rw [if_neg (by tauto), if_pos hday]
  · intro hcn hsv hday hlab
    unfold create_appointment
    rw [if_neg (by tauto), if_neg hday, if_pos hlab]
  · intro hbad
    by_cases hblank : pyStrip cn = "" ∨ pyStrip sv = ""
    · unfold create_appointment
      rw [if_pos hblank]
      exact ⟨by simp, rfl⟩
    · by_cases hday : pyWeekday day = 6
      · unfold create_appointment
        rw [if_neg hblank, if_pos hday]
        exact ⟨by simp, rfl⟩
      · have hlab : labelOf timeMin ∉ (iter_slots_for_day day).map Slot.label := by
          tauto
        unfold create_appointment
        rw [if_neg hblank, if_neg hday, if_pos hlab]
        exact ⟨by simp, rfl⟩

theorem create_check_order_witness :
    pyWeekday 738892 = 6 ∧
      create_appointment initDB 1 738892 540 "  " "+905331112233" "Kirpik"
        = (.err "Zorunlu alanlar eksik." 400, initDB) ∧
      create_appointment initDB 1 738892 540 "Ayşe Yılmaz" "+905331112233" "Kirpik"
        = (.err "Pazar günü randevu alınamaz." 400, initDB) ∧
      create_appointment initDB 1 738886 545 "Ayşe Yılmaz" "+905331112233" "Kirpik"
        = (.err "Geçersiz saat dilimi." 400, initDB) ∧
      ¬ isConflictError
          (create_appointment initDB 1 738886 545 "Ayşe Yılmaz" "+905331112233" "Kirpik").1 :=
  ⟨by decide,
   (create_check_order initDB 1 738892 540 "  " "+905331112233" "Kirpik").1 (by decide),
   (create_check_order initDB 1 738892 540 "Ayşe Yılmaz" "+905331112233" "Kirpik").2.1
     (by decide) (by decide) (by decide),
   (create_check_order initDB 1 738886 545 "Ayşe Yılmaz" "+905331112233" "Kirpik").2.2.1
     (by decide) (by decide) (by decide) (by decide),
   ((create_check_order initDB 1 738886 545 "Ayşe Yılmaz" "+905331112233" "Kirpik").2.2.2
     (Or.inr (by decide))).1⟩

/-! ## Delete (C7) -/

lemma find_append_none {p : Appt → Bool} {l₁ l₂ : List Appt}
    (h : l₁.find? p = none) : (l₁ ++ l₂).find? p = l₂.find? p := by
  simp [List.find?_append, h]

/-- C7: delete on an id absent from the store 404s leaving the store
unchanged; delete on a present id removes that record permanently (the
new appointment table is the old one with every row of that primary key
filtered out) and afterwards a point lookup on the deleted record's
(employee, start timestamp) key returns none.  The uniqueness hypotheses
are the store invariants every reachable state satisfies. -/
theorem delete_contract (db : DB) (hK : UniqueKeys db) (apptId : Nat) :
    ((∀ x ∈ db.appointments, x.id ≠ apptId) →
      delete_appointment db apptId = (.err "Randevu bulunamadı." 404, db)) ∧
    (∀ a ∈ db.appointments, a.id = apptId →
      delete_appointment db apptId =
          (.noContent,
            { db with
              appointments := db.appointments.filter (fun b => !(b.id == apptId)) }) ∧
        a ∉ (delete_appointment db apptId).2.appointments ∧
        findAppt (delete_appointment db apptId).2 a.employee_id a.start_time
          = none) := by
  constructor
  · intro habs
    have hfind : db.appointments.find? (fun a => a.id == apptId) = none := by
      rw [List.find?_eq_none]
      intro x hx
      simp only [beq_iff_eq]
      exact habs x hx
    unfold delete_appointment
    rw [hfind]
  · intro a ha hid
    have hres : delete_appointment db apptId =
        (.noContent,
          { db with
            appointments := db.appointments.filter (fun b => !(b.id == apptId)) }) := by
      unfold delete_appointment
      rcases hfind : db.appointments.find? (fun x => x.id == apptId) with _ | b
      · exfalso
        rw [List.find?_eq_none] at hfind
        exact hfind a ha (by simp [hid])
      · rw [hfind]
    refine ⟨hres, ?_, ?_⟩
    · rw [hres]
      simp only [List.mem_filter, Bool.not_eq_true', beq_eq_false_iff_ne, ne_eq]
      intro hmem
      exact hmem.2 hid
    · rw [hres]
      unfold findAppt
      simp only
      rw [List.find?_eq_none]
      intro b hb
      simp only [List.mem_filter, Bool.not_eq_true', beq_eq_false_iff_ne, ne_eq] at hb
      obtain ⟨hbmem, hbid⟩ := hb
      simp only [Bool.and_eq_true, beq_iff_eq, not_and]
      intro hbe hbs
      rcases eq_or_ne b a with rfl | hne
      · exact hbid hid
      · have hsymm : Symmetric (fun x y : Appt =>
            ¬(x.employee_id = y.employee_id ∧ x.start_time = y.start_time)) := by
          intro x y hxy hc
          exact hxy ⟨hc.1.symm, hc.2.symm⟩
        exact List.Pairwise.forall hsymm hK hbmem ha hne ⟨hbe, hbs⟩

theorem delete_contract_witness :
    delete_appointment
        ⟨seedEmployees, [⟨1, 2, "Ayşe Yılmaz", "+905331112233", "Kirpik",
          dtOf 738886 540, dtOf 738886 540 + SLOT_MINUTES, false⟩], 2⟩ 1 =
      (.noContent, ⟨seedEmployees, [], 2⟩) ∧
    delete_appointment
        ⟨seedEmployees, [⟨1, 2, "Ayşe Yılmaz", "+905331112233", "Kirpik",
          dtOf 738886 540, dtOf 738886 540 + SLOT_MINUTES, false⟩], 2⟩ 9 =
      (.err "Randevu bulunamadı." 404,
        ⟨seedEmployees, [⟨1, 2, "Ayşe Yılmaz", "+905331112233", "Kirpik",
          dtOf 738886 540, dtOf 738886 540 + SLOT_MINUTES, false⟩], 2⟩) :=
  ⟨((delete_contract
      ⟨seedEmployees, [⟨1, 2, "Ayşe Yılmaz", "+905331112233", "Kirpik",
        dtOf 738886 540, dtOf 738886 540 + SLOT_MINUTES, false⟩], 2⟩
      (by decide) 1).2
      ⟨1, 2, "Ayşe Yılmaz", "+905331112233", "Kirpik",
        dtOf 738886 540, dtOf 738886 540 + SLOT_MINUTES, false⟩
      (by decide) rfl).1,
   (delete_contract
      ⟨seedEmployees, [⟨1, 2, "Ayşe Yılmaz", "+905331112233", "Kirpik",
        dtOf 738886 540, dtOf 738886 540 + SLOT_MINUTES, false⟩], 2⟩
      (by decide) 9).1 (by decide)⟩

/-! ## Create-then-find round trip (C8) -/

/-- C8: a successful booking through `create_appointment` followed by the
point lookup on the same (employee, start timestamp) returns exactly the
created record, whose customer_name, phone and service are the submitted
(trimmed) values and whose end timestamp is the start plus the 60-minute
slot duration. -/
theorem create_find_round_trip (db : DB) (empId : Nat) (day : Int) (timeMin : Nat)
    (cn ph sv : String) (a : Appt) (db' : DB)
    (h : create_appointment db empId day timeMin cn ph sv = (.created a, db')) :
    findAppt db' empId (dtOf day timeMin) = some a ∧
      a.customer_name = pyStrip cn ∧ a.phone = pyStrip ph ∧
      a.service = pyStrip sv ∧ a.start_time = dtOf day timeMin ∧
      a.end_time = a.start_time + SLOT_MINUTES := by
  unfold create_appointment at h
  split at h
  · exact absurd h (by simp)
  split at h
  · exact absurd h (by simp)
  split at h
  · exact absurd h (by simp)
  unfold store_create at h
  split at h
  · exact absurd h (by simp)
  split at h
  · exact absurd h (by simp)
  rename_i hemp hkey
  rw [Bool.not_eq_true] at hkey
  unfold dbInsert at h
  rw [if_neg (by simp [hkey])] at h
  simp only [Resp.created.injEq, Prod.mk.injEq] at h
  obtain ⟨ha, hdb⟩ := h
  subst hdb
  have hfind : findAppt
      ⟨db.employees,
        db.appointments ++
          [⟨db.nextId, empId, pyStrip cn, pyStrip ph, pyStrip sv,
            dtOf day timeMin, dtOf day timeMin + SLOT_MINUTES, false⟩],
        db.nextId + 1⟩ empId (dtOf day timeMin) = some
      ⟨db.nextId, empId, pyStrip cn, pyStrip ph, pyStrip sv,
        dtOf day timeMin, dtOf day timeMin + SLOT_MINUTES, false⟩ := by
    unfold findAppt
    simp only
    rw [find_append_none, List.find?_cons_of_pos _ (by simp)]
    rw [List.find?_eq_none]
    intro x hx
    simp only [Bool.and_eq_true, beq_iff_eq, not_and]
    intro hxe hxs
    have hkt : hasKey db empId (dtOf day timeMin) = true := by
      simp only [hasKey, List.any_eq_true]
      exact ⟨x, hx, by simp [hxe, hxs]⟩
    rw [hkey] at hkt
    exact Bool.false_ne_true hkt
  rw [← ha]
  exact ⟨hfind, rfl, rfl, rfl, rfl, rfl⟩

theorem create_find_round_trip_witness :
    create_appointment initDB 1 738886 540 " Ayşe Yılmaz " "+905331112233" "Kirpik" =
      (.created ⟨1, 1, "Ayşe Yılmaz", "+905331112233", "Kirpik",
        dtOf 738886 540, dtOf 738886 540 + SLOT_MINUTES, false⟩,
       ⟨seedEmployees, [⟨1, 1, "Ayşe Yılmaz", "+905331112233", "Kirpik",
        dtOf 738886 540, dtOf 738886 540 + SLOT_MINUTES, false⟩], 2⟩) ∧
    findAppt
        ⟨seedEmployees, [⟨1, 1, "Ayşe Yılmaz", "+905331112233", "Kirpik",
          dtOf 738886 540, dtOf 738886 540 + SLOT_MINUTES, false⟩], 2⟩
        1 (dtOf 738886 540) = some
      ⟨1, 1, "Ayşe Yılmaz", "+905331112233", "Kirpik",
        dtOf 738886 540, dtOf 738886 540 + SLOT_MINUTES, false⟩ :=
  ⟨by decide,
   (create_find_round_trip initDB 1 738886 540 " Ayşe Yılmaz " "+905331112233" "Kirpik"
      ⟨1, 1, "Ayşe Yılmaz", "+905331112233", "Kirpik",
        dtOf 738886 540, dtOf 738886 540 + SLOT_MINUTES, false⟩
      ⟨seedEmployees, [⟨1, 1, "Ayşe Yılmaz", "+905331112233", "Kirpik",
        dtOf 738886 540, dtOf 738886 540 + SLOT_MINUTES, false⟩], 2⟩
      (by decide)).1⟩

/-! ## Week-range listing (C9) -/

/-- C9: `fetch_week_appointments` returns exactly the stored appointments
whose start instant falls on a calendar day between the first and the
last of the supplied days, both inclusive. -/
theorem list_in_range_inclusive (db : DB) (days : List Int) (a : Appt) :
    a ∈ fetch_week_appointments db days ↔
      a ∈ db.appointments ∧ days.headD 0 ≤ dayOfInstant a.start_time ∧
        dayOfInstant a.start_time ≤ days.getLastD 0 := by
  simp only [fetch_week_appointments, List.mem_filter, Bool.and_eq_true,
    decide_eq_true_eq, dtOf, dayOfInstant]
  constructor
  · rintro ⟨hm, h1, h2⟩
    exact ⟨hm, by omega, by omega⟩
  · rintro ⟨hm, h1, h2⟩
    exact ⟨hm, by omega, by omega⟩

theorem list_in_range_inclusive_witness :
    ⟨1, 1, "Ayşe Yılmaz", "+905331112233", "Kirpik",
        dtOf 738886 540, dtOf 738886 540 + SLOT_MINUTES, false⟩ ∈
      fetch_week_appointments
        ⟨seedEmployees, [⟨1, 1, "Ayşe Yılmaz", "+905331112233", "Kirpik",
          dtOf 738886 540, dtOf 738886 540 + SLOT_MINUTES, false⟩], 2⟩
        (week_days 738886) :=
  (list_in_range_inclusive
    ⟨seedEmployees, [⟨1, 1, "Ayşe Yılmaz", "+905331112233", "Kirpik",
      dtOf 738886 540, dtOf 738886 540 + SLOT_MINUTES, false⟩], 2⟩
    (week_days 738886)
    ⟨1, 1, "Ayşe Yılmaz", "+905331112233", "Kirpik",
      dtOf 738886 540, dtOf 738886 540 + SLOT_MINUTES, false⟩).mpr
    ⟨by decide, by decide, by decide⟩

end Salon
